import Mathlib

/-!
# Verification of the drop-in-be locale-resolution and slug-identity engines

Shallow embedding of the repository's slug derivation (`slugify`,
`ensureUniqueSlug`, the `pre('validate')` / `pre('save')` hooks and
`productRepo.update`), the name-uniqueness check (`ensureUniqueName`,
`productRepo.create`), and the locale-resolution helpers
(`buildLocalePriority`, `pickLocalizedValue`, `attachMetaFields`) together
with the response-header behaviour of the HTTP handlers.

Strings are modelled as Lean `String`s (lists of Unicode scalar values).
JavaScript's `String.prototype.normalize("NFKD")` is an external Unicode
library call, so it is threaded through as an explicit parameter `nfkd`;
the theorems that need a fact about it assume only that NFKD is the
identity on ASCII slug output, which is true of real Unicode NFKD.
The process-wide `DEFAULT_LOCALE` constant lives in a module that is not
part of the sources, so it is likewise a parameter `dl`; every theorem
holds for every value of it.
-/

namespace DropInBe

/-! ## JavaScript string primitives -/

/-- JS truthiness for a string-or-undefined value: `undefined` and `""` are
falsy, every other string is truthy. -/
def truthy (v : Option String) : Option String :=
  match v with
  | some s => if s = "" then none else some s
  | none => none

/-- JS `a || b` on string-or-undefined values. -/
def jsOrS (a b : Option String) : Option String :=
  match truthy a with
  | some s => some s
  | none => b

/-- Whitespace recognised by JS `String.prototype.trim` (tab, LF, VT, FF,
CR, space, NBSP, LS, PS, BOM; the remaining exotic Unicode space
characters never occur in the claims' inputs). -/
def isJsWs (c : Char) : Bool :=
  c.toNat = 9 || c.toNat = 10 || c.toNat = 11 || c.toNat = 12 ||
  c.toNat = 13 || c.toNat = 32 || c.toNat = 160 ||
  c.toNat = 0x2028 || c.toNat = 0x2029 || c.toNat = 0xFEFF

/-- List-level JS `trim`: drop whitespace from both ends. -/
def trimJs (l : List Char) : List Char :=
  (((l.dropWhile isJsWs).reverse.dropWhile isJsWs)).reverse

/-- JS `String.prototype.trim`. -/
def jsTrim (s : String) : String :=
  String.mk (trimJs s.toList)

/-- The characters the slug regex `[a-z0-9]` accepts. -/
def isSlugChar (c : Char) : Bool :=
  (97 ≤ c.toNat && c.toNat ≤ 122) || (48 ≤ c.toNat && c.toNat ≤ 57)

/-- JS `String.prototype.toLowerCase` on one character. Only the ASCII
range matters here: every non-ASCII character (where JS lowercasing could
differ) is later collapsed to a hyphen by the `[^a-z0-9]+` replacement,
so its image is irrelevant. -/
def jsLowerChar (c : Char) : Char :=
  if 65 ≤ c.toNat ∧ c.toNat ≤ 90 then Char.ofNat (c.toNat + 32) else c

/-- `.replace(/[̀-ͯ]/g, "")`: strip combining diacritics. -/
def stripCombining (l : List Char) : List Char :=
  l.filter (fun c => !(0x300 ≤ c.toNat && c.toNat ≤ 0x36F))

/-- `.replace(/[^a-z0-9]+/g, "-")`: collapse each maximal run of
non-`[a-z0-9]` characters to one hyphen. The flag records whether we are
inside such a run (its first character already emitted the hyphen). -/
def collapseAux : Bool → List Char → List Char
  | _, [] => []
  | inRun, c :: rest =>
    if isSlugChar c then c :: collapseAux false rest
    else if inRun then collapseAux true rest
    else '-' :: collapseAux true rest

/-- `.replace(/(^-|-$)+/g, "")`, leading part: the regex removes the single
possible hyphen at the start (the preceding collapse step never leaves two
adjacent hyphens). -/
def dropLeadHyphen : List Char → List Char
  | [] => []
  | c :: t => if c = '-' then t else c :: t

/-- `.replace(/(^-|-$)+/g, "")`, trailing part: remove the single possible
hyphen at the end. -/
def dropTrailHyphen : List Char → List Char
  | [] => []
  | [c] => if c = '-' then [] else [c]
  | c :: t => c :: dropTrailHyphen t

/-- All pipeline stages of `slugify` after the Unicode normalization. -/
def slugCore (l : List Char) : List Char :=
  dropTrailHyphen (dropLeadHyphen
    (collapseAux false (trimJs ((stripCombining l).map jsLowerChar))))

/-- `slugify` from `models/Product.ts` (and its copy in the product repo):
NFKD-normalize, strip combining marks, lowercase, trim, collapse runs of
non-`[a-z0-9]` to single hyphens, strip edge hyphens. `nfkd` is the
JS `normalize("NFKD")` library call, passed explicitly. -/
def slugify (nfkd : String → String) (s : String) : String :=
  String.mk (slugCore (nfkd s).toList)

/-! ## Shape of slug output -/

/-- One-pass scan: every character is `[a-z0-9]` or `-`, and a hyphen is
never followed by another hyphen (the flag records whether the previous
character was a hyphen). -/
def hyphensSeparated : Bool → List Char → Bool
  | _, [] => true
  | prevHyphen, c :: t =>
    if c = '-' then !prevHyphen && hyphensSeparated true t
    else isSlugChar c && hyphensSeparated false t

/-- The first character is not a hyphen. -/
def headNotHyphen : List Char → Bool
  | [] => true
  | c :: _ => !(c = '-')

/-- The last character is not a hyphen. -/
def endNotHyphen : List Char → Bool
  | [] => true
  | [c] => !(c = '-')
  | _ :: t => endNotHyphen t

/-- A well-formed slug: only `[a-z0-9]` and single interior hyphens, no
leading or trailing hyphen. -/
def wellFormedSlug (l : List Char) : Bool :=
  hyphensSeparated false l && headNotHyphen l && endNotHyphen l

theorem isSlugChar_ne_hyphen {c : Char} (h : isSlugChar c = true) : ¬ c = '-' := by
  intro hc
  subst hc
  simp [isSlugChar] at h

theorem hs_cons_hyphen (b : Bool) (t : List Char) :
    hyphensSeparated b ('-' :: t) = (!b && hyphensSeparated true t) := by
  simp [hyphensSeparated]

theorem hs_cons_slug {c : Char} (hc : ¬ c = '-') (b : Bool) (t : List Char) :
    hyphensSeparated b (c :: t) = (isSlugChar c && hyphensSeparated false t) := by
  simp [hyphensSeparated, hc]

theorem dropTrail_cons₂ (c d : Char) (u : List Char) :
    dropTrailHyphen (c :: d :: u) = c :: dropTrailHyphen (d :: u) := rfl

theorem dropTrail_ne_nil {d : Char} (hd : ¬ d = '-') (u : List Char) :
    dropTrailHyphen (d :: u) ≠ [] := by
  cases u with
  | nil => simp [dropTrailHyphen, hd]
  | cons e u' => simp [dropTrail_cons₂]

theorem endNotHyphen_cons_of_ne_nil {r : List Char} (c : Char) (h : r ≠ []) :
    endNotHyphen (c :: r) = endNotHyphen r := by
  cases r with
  | nil => exact absurd rfl h
  | cons e u => rfl

theorem hyphensSeparated_collapseAux (l : List Char) :
    ∀ b, hyphensSeparated b (collapseAux b l) = true := by
  induction l with
  | nil => intro b; simp [collapseAux, hyphensSeparated]
  | cons c t ih =>
    intro b
    by_cases hc : isSlugChar c = true
    · have hne : ¬ c = '-' := isSlugChar_ne_hyphen hc
      simp [collapseAux, hc, hyphensSeparated, hne, ih false]
    · rcases b with _ | _
      · simp only [collapseAux, hc, if_false, Bool.false_eq_true, if_neg]
        simp [hyphensSeparated, ih true]
      · simp only [collapseAux, hc, if_false, Bool.false_eq_true, if_neg]
        exact ih true

theorem hyphensSeparated_weaken {l : List Char}
    (h : hyphensSeparated true l = true) : hyphensSeparated false l = true := by
  cases l with
  | nil => simp [hyphensSeparated]
  | cons c t =>
    by_cases hc : c = '-'
    · simp [hyphensSeparated, hc] at h
    · simpa [hyphensSeparated, hc] using h

theorem headNotHyphen_of_sep_true {l : List Char}
    (h : hyphensSeparated true l = true) : headNotHyphen l = true := by
  cases l with
  | nil => rfl
  | cons c t =>
    by_cases hc : c = '-'
    · simp [hyphensSeparated, hc] at h
    · simp [headNotHyphen, hc]

theorem hyphensSeparated_dropLead {l : List Char}
    (h : hyphensSeparated false l = true) :
    hyphensSeparated false (dropLeadHyphen l) = true ∧
      headNotHyphen (dropLeadHyphen l) = true := by
  cases l with
  | nil => exact And.intro rfl rfl
  | cons c t =>
    by_cases hc : c = '-'
    · subst hc
      rw [hs_cons_hyphen] at h
      simp only [Bool.not_false, Bool.true_and] at h
      exact ⟨hyphensSeparated_weaken h, headNotHyphen_of_sep_true h⟩
    · constructor
      · show hyphensSeparated false (if c = '-' then t else c :: t) = true
        rw [if_neg hc]
        exact h
      · show headNotHyphen (if c = '-' then t else c :: t) = true
        rw [if_neg hc]
        simp [headNotHyphen, hc]

theorem hyphensSeparated_dropTrail (l : List Char) :
    ∀ b, hyphensSeparated b l = true →
      hyphensSeparated b (dropTrailHyphen l) = true ∧
        endNotHyphen (dropTrailHyphen l) = true := by
  induction l with
  | nil => intro b _; exact And.intro rfl rfl
  | cons c t ih =>
    intro b h
    cases t with
    | nil =>
      by_cases hc : c = '-'
      · subst hc
        exact And.intro rfl rfl
      · refine ⟨?_, ?_⟩
        · show hyphensSeparated b (if c = '-' then [] else [c]) = true
          rw [if_neg hc]
          exact h
        · show endNotHyphen (if c = '-' then [] else [c]) = true
          rw [if_neg hc]
          simp [endNotHyphen, hc]
    | cons d u =>
      rw [dropTrail_cons₂]
      by_cases hc : c = '-'
      · subst hc
        rw [hs_cons_hyphen] at h
        simp only [Bool.and_eq_true] at h
        have hb : (!b) = true := h.1
        have ht : hyphensSeparated true (d :: u) = true := h.2
        have hd : ¬ d = '-' := by
          intro hd
          subst hd
          rw [hs_cons_hyphen] at ht
          simp at ht
        have hrec := ih true ht
        have hne := dropTrail_ne_nil hd u
        refine ⟨?_, ?_⟩
        · rw [hs_cons_hyphen, hb, hrec.1]
          rfl
        · rw [endNotHyphen_cons_of_ne_nil _ hne]
          exact hrec.2
      · rw [hs_cons_slug hc] at h
        simp only [Bool.and_eq_true] at h
        have hcs : isSlugChar c = true := h.1
        have ht : hyphensSeparated false (d :: u) = true := h.2
        have hrec := ih false ht
        refine ⟨?_, ?_⟩
        · rw [hs_cons_slug hc, hcs, hrec.1]
          rfl
        · cases hr : dropTrailHyphen (d :: u) with
          | nil => simp [endNotHyphen, hc]
          | cons e r' =>
            rw [endNotHyphen_cons_of_ne_nil _ (by simp [hr])]
            rw [← hr]
            exact hrec.2

theorem headNotHyphen_dropTrail {l : List Char}
    (h : headNotHyphen l = true) : headNotHyphen (dropTrailHyphen l) = true := by
  cases l with
  | nil => rfl
  | cons c t =>
    cases t with
    | nil =>
      by_cases hc : c = '-'
      · simp [headNotHyphen, hc] at h
      · show headNotHyphen (if c = '-' then [] else [c]) = true
        rw [if_neg hc]
        exact h
    | cons d u =>
      rw [dropTrail_cons₂]
      exact h

/-- The output of the full post-normalization pipeline is a well-formed
slug, whatever the input. -/
theorem wellFormedSlug_slugCore (l : List Char) :
    wellFormedSlug (slugCore l) = true := by
  unfold slugCore wellFormedSlug
  set m := collapseAux false (trimJs ((stripCombining l).map jsLowerChar)) with hm
  have h0 : hyphensSeparated false m = true := hyphensSeparated_collapseAux _ false
  have h1 := hyphensSeparated_dropLead h0
  have h2 := hyphensSeparated_dropTrail (dropLeadHyphen m) false h1.1
  have h3 := headNotHyphen_dropTrail h1.2
  simp [h2.1, h2.2, h3]

/-! ## `slugify` is the identity on well-formed slugs -/

theorem mem_hyphensSeparated {l : List Char} :
    ∀ b, hyphensSeparated b l = true →
      ∀ c ∈ l, isSlugChar c = true ∨ c = '-' := by
  induction l with
  | nil => intro b _ c hc; exact absurd hc (List.not_mem_nil c)
  | cons d t ih =>
    intro b h c hc
    by_cases hd : d = '-'
    · subst hd
      rw [hs_cons_hyphen] at h
      simp only [Bool.and_eq_true] at h
      rcases List.mem_cons.mp hc with rfl | hmem
      · exact Or.inr rfl
      · exact ih true h.2 c hmem
    · rw [hs_cons_slug hd] at h
      simp only [Bool.and_eq_true] at h
      rcases List.mem_cons.mp hc with rfl | hmem
      · exact Or.inl h.1
      · exact ih false h.2 c hmem

theorem slugOrHyphen_toNat {c : Char} (h : isSlugChar c = true ∨ c = '-') :
    c.toNat = 45 ∨ (48 ≤ c.toNat ∧ c.toNat ≤ 57) ∨ (97 ≤ c.toNat ∧ c.toNat ≤ 122) := by
  rcases h with h | rfl
  · simp only [isSlugChar, Bool.or_eq_true, Bool.and_eq_true, decide_eq_true_eq] at h
    omega
  · left; rfl

theorem mapIdOn {f : Char → Char} {l : List Char}
    (h : ∀ c ∈ l, f c = c) : l.map f = l := by
  induction l with
  | nil => rfl
  | cons c t ih =>
    simp only [List.map_cons, h c (List.mem_cons_self c t)]
    rw [ih (fun d hd => h d (List.mem_cons_of_mem c hd))]

theorem filterIdOn {p : Char → Bool} {l : List Char}
    (h : ∀ c ∈ l, p c = true) : l.filter p = l := by
  induction l with
  | nil => rfl
  | cons c t ih =>
    simp only [List.filter_cons, h c (List.mem_cons_self c t), if_pos]
    rw [ih (fun d hd => h d (List.mem_cons_of_mem c hd))]

theorem dropWhileIdOn {p : Char → Bool} {l : List Char}
    (h : ∀ c ∈ l, p c = false) : l.dropWhile p = l := by
  cases l with
  | nil => rfl
  | cons c t => simp [List.dropWhile_cons, h c (List.mem_cons_self c t)]

theorem trimJs_eq_self {l : List Char}
    (h : ∀ c ∈ l, isJsWs c = false) : trimJs l = l := by
  unfold trimJs
  rw [dropWhileIdOn h]
  rw [dropWhileIdOn (fun c hc => h c (List.mem_reverse.mp hc))]
  exact List.reverse_reverse l

theorem collapseAux_eq_self {l : List Char} :
    ∀ b, hyphensSeparated b l = true → collapseAux b l = l := by
  induction l with
  | nil => intro b _; rfl
  | cons c t ih =>
    intro b h
    by_cases hc : c = '-'
    · subst hc
      rw [hs_cons_hyphen] at h
      simp only [Bool.and_eq_true] at h
      have hb : b = false := by
        cases b
        · rfl
        · simp at h
      subst hb
      have hslug : isSlugChar '-' = false := by decide
      show (if isSlugChar '-' = true then '-' :: collapseAux false t
            else if false = true then collapseAux true t
            else '-' :: collapseAux true t) = '-' :: t
      rw [hslug]
      simp only [Bool.false_eq_true, if_false]
      rw [ih true h.2]
    · rw [hs_cons_slug hc] at h
      simp only [Bool.and_eq_true] at h
      show (if isSlugChar c = true then c :: collapseAux false t
            else if b = true then collapseAux true t
            else '-' :: collapseAux true t) = c :: t
      rw [h.1]
      simp only [if_pos]
      rw [ih false h.2]

theorem dropLeadHyphen_eq_self {l : List Char}
    (h : headNotHyphen l = true) : dropLeadHyphen l = l := by
  cases l with
  | nil => rfl
  | cons c t =>
    have hc : ¬ c = '-' := by
      simp only [headNotHyphen, Bool.not_eq_true', decide_eq_false_iff_not] at h
      exact h
    show (if c = '-' then t else c :: t) = c :: t
    rw [if_neg hc]

theorem dropTrailHyphen_eq_self {l : List Char}
    (h : endNotHyphen l = true) : dropTrailHyphen l = l := by
  induction l with
  | nil => rfl
  | cons c t ih =>
    cases t with
    | nil =>
      have hc : ¬ c = '-' := by
        simp only [endNotHyphen, Bool.not_eq_true', decide_eq_false_iff_not] at h
        exact h
      show (if c = '-' then [] else [c]) = [c]
      rw [if_neg hc]
    | cons d u =>
      rw [dropTrail_cons₂, ih h]

/-- `slugCore` fixes every well-formed slug. -/
theorem slugCore_eq_self {l : List Char}
    (h : wellFormedSlug l = true) : slugCore l = l := by
  unfold wellFormedSlug at h
  simp only [Bool.and_eq_true] at h
  obtain ⟨⟨hsep, hhead⟩, hend⟩ := h
  have hmem : ∀ c ∈ l, isSlugChar c = true ∨ c = '-' :=
    mem_hyphensSeparated false hsep
  have hcode := fun c hc => slugOrHyphen_toNat (hmem c hc)
  unfold slugCore stripCombining
  rw [filterIdOn (fun c hc => by
    have hco := hcode c hc
    show (!(decide (0x300 ≤ c.toNat) && decide (c.toNat ≤ 0x36F))) = true
    rw [decide_eq_false (show ¬ 0x300 ≤ c.toNat by omega)]
    rfl)]
  rw [mapIdOn (fun c hc => by
    have hco := hcode c hc
    unfold jsLowerChar
    rw [if_neg (by omega)])]
  rw [trimJs_eq_self (fun c hc => by
    have hco := hcode c hc
    unfold isJsWs
    rw [decide_eq_false (show ¬ c.toNat = 9 by omega),
      decide_eq_false (show ¬ c.toNat = 10 by omega),
      decide_eq_false (show ¬ c.toNat = 11 by omega),
      decide_eq_false (show ¬ c.toNat = 12 by omega),
      decide_eq_false (show ¬ c.toNat = 13 by omega),
      decide_eq_false (show ¬ c.toNat = 32 by omega),
      decide_eq_false (show ¬ c.toNat = 160 by omega),
      decide_eq_false (show ¬ c.toNat = 0x2028 by omega),
      decide_eq_false (show ¬ c.toNat = 0x2029 by omega),
      decide_eq_false (show ¬ c.toNat = 0xFEFF by omega)]
    rfl)]
  rw [collapseAux_eq_self false hsep]
  rw [dropLeadHyphen_eq_self hhead]
  rw [dropTrailHyphen_eq_self hend]

theorem toList_mk (l : List Char) : (String.mk l).toList = l := rfl

theorem mk_toList (s : String) : String.mk s.toList = s := rfl

/-- C5: `normalize` (slugify) is total by construction; its output contains
only `[a-z0-9]` and single interior hyphens with no leading or trailing
hyphen, and — given that Unicode NFKD fixes strings made of such ASCII
characters, which is true of the real `normalize("NFKD")` — it is
idempotent: `slugify (slugify x) = slugify x` for every text `x`. -/
theorem claim_C5_slugify_shape_idempotent (nfkd : String → String) (x : String) :
    wellFormedSlug ((slugify nfkd x).toList) = true ∧
      ((∀ s : String, (∀ c ∈ s.toList, isSlugChar c = true ∨ c = '-') → nfkd s = s) →
        slugify nfkd (slugify nfkd x) = slugify nfkd x) := by
  have hwf : wellFormedSlug ((slugify nfkd x).toList) = true := by
    unfold slugify
    rw [toList_mk]
    exact wellFormedSlug_slugCore _
  refine ⟨hwf, fun hn => ?_⟩
  have hfix : nfkd (slugify nfkd x) = slugify nfkd x := by
    apply hn
    intro c hc
    have hsep : hyphensSeparated false ((slugify nfkd x).toList) = true := by
      unfold wellFormedSlug at hwf
      simp only [Bool.and_eq_true] at hwf
      exact hwf.1.1
    exact mem_hyphensSeparated false hsep c hc
  show String.mk (slugCore (nfkd (slugify nfkd x)).toList) = slugify nfkd x
  rw [hfix, slugCore_eq_self hwf]
  exact mk_toList _

/-- C5 witness: at the concrete input `"Cafe au Lait!!"` with NFKD
instantiated to the identity (legitimate: the input is ASCII), `slugify`
yields `"cafe-au-lait"`, its output is well-formed and a second
application fixes it. -/
theorem claim_C5_slugify_witness :
    wellFormedSlug ((slugify id "Cafe au Lait!!").toList) = true ∧
      slugify id (slugify id "Cafe au Lait!!") = slugify id "Cafe au Lait!!" ∧
      slugify id "Cafe au Lait!!" = "cafe-au-lait" :=
  ⟨(claim_C5_slugify_shape_idempotent id "Cafe au Lait!!").1,
   (claim_C5_slugify_shape_idempotent id "Cafe au Lait!!").2 (fun _ _ => rfl),
   by decide⟩

/-! ## Data model: products and localized bundles -/

/-- A `LocalizedString`: mapping from locale code to text, as stored
(object keys are unique, first binding wins). -/
abbrev Bundle := List (String × String)

/-- Object property access `bundle[k]`. -/
def bLookup (b : Bundle) (k : String) : Option String :=
  (b.find? (fun p => p.1 == k)).map (fun p => p.2)

/-- Optional-chain access `nm?.[k]`. -/
def bField (nm : Option Bundle) (k : String) : Option String :=
  match nm with
  | some b => bLookup b k
  | none => none

/-- JS `a || b || ... || dflt` over string-or-undefined values: the first
truthy entry, else the literal default. -/
def firstTruthy (xs : List (Option String)) (dflt : String) : String :=
  match xs with
  | [] => dflt
  | x :: rest =>
    match truthy x with
    | some s => s
    | none => firstTruthy rest dflt

/-- The mongoose product document, restricted to the fields the slug and
name-uniqueness engines read and write (`price` stands for the unrelated
scalar payload fields). -/
structure PDoc where
  id : Nat
  slug : Option String
  name_i18n : Option Bundle
  category : Option String
  price : Int
deriving DecidableEq

/-! ## `ensureUniqueSlug` (models/Product.ts) -/

/-- The loop body's `` `${base}-${i}` ``. -/
def suffixed (base : String) (i : Nat) : String :=
  base ++ "-" ++ toString i

/-- The `while (await ProductModel.exists({slug: candidate, _id: {$ne: doc._id}}))`
loop; `taken` is the injected existence check (already excluding the
document itself), `fuel` bounds the number of storage probes. -/
def slugLoop (taken : String → Bool) (base : String) :
    Nat → String → Nat → Option String
  | 0, _, _ => none
  | fuel + 1, candidate, i =>
    if taken candidate then slugLoop taken base fuel (suffixed base i) (i + 1)
    else some candidate

/-- `slugify(doc.slug || nameEn || nameDefault || nameVi || "product")`:
the normalized base the loop appends suffixes to. -/
def slugBase (nfkd : String → String) (dl : String) (doc : PDoc) : String :=
  slugify nfkd (firstTruthy
    [doc.slug, bField doc.name_i18n "en", bField doc.name_i18n dl,
     bField doc.name_i18n "vi"] "product")

/-- `ensureUniqueSlug` from `models/Product.ts`: derive the base, fall back
to `"product"` when it is empty, then probe candidates until one is free.
Returns the final slug (`none` only when `fuel` probes were not enough). -/
def ensureUniqueSlug (nfkd : String → String) (dl : String)
    (taken : String → Bool) (doc : PDoc) (fuel : Nat) : Option String :=
  let base := slugBase nfkd dl doc
  slugLoop taken base fuel (if base = "" then "product" else base) 2

theorem slugLoop_free (taken : String → Bool) (base : String) :
    ∀ fuel candidate i r,
      slugLoop taken base fuel candidate i = some r → taken r = false := by
  intro fuel
  induction fuel with
  | zero => intro candidate i r h; exact absurd h (by simp [slugLoop])
  | succ f ih =>
    intro candidate i r h
    unfold slugLoop at h
    by_cases ht : taken candidate = true
    · rw [if_pos ht] at h
      exact ih _ _ _ h
    · rw [if_neg ht] at h
      cases h
      exact Bool.not_eq_true _ ▸ ht

theorem slugLoop_scan (taken : String → Bool) (base : String) (N : Nat)
    (htaken : ∀ k, 2 ≤ k → k ≤ N + 1 → taken (suffixed base k) = true)
    (hfree : taken (suffixed base (N + 2)) = false) :
    ∀ fuel j, 2 ≤ j → j ≤ N + 2 → N + 3 - j ≤ fuel →
      slugLoop taken base fuel (suffixed base j) (j + 1) =
        some (suffixed base (N + 2)) := by
  intro fuel
  induction fuel with
  | zero => intro j h2 hN hf; omega
  | succ f ih =>
    intro j h2 hN hf
    by_cases hj : j = N + 2
    · subst hj
      unfold slugLoop
      rw [hfree]
      simp
    · have hj1 : j ≤ N + 1 := by omega
      have ht := htaken j h2 hj1
      unfold slugLoop
      rw [ht]
      simp only [if_true]
      exact ih (j + 1) (by omega) (by omega) (by omega)

/-- C1: for every entity and every (consistent, pure) existence check,
`ensureUniqueSlug` never returns a candidate the check reports as taken,
and — when the normalized base is non-empty, the bare base and the
suffixed candidates `base-2 .. base-(N+1)` are all taken while
`base-(N+2)` is free, and at least `N+2` probes of fuel are available —
it returns exactly `base-(N+2)`. -/
theorem claim_C1_ensureUniqueSlug (nfkd : String → String) (dl : String)
    (taken : String → Bool) (doc : PDoc) (fuel : Nat) :
    (∀ r, ensureUniqueSlug nfkd dl taken doc fuel = some r → taken r = false) ∧
    (∀ N : Nat, slugBase nfkd dl doc ≠ "" →
      taken (slugBase nfkd dl doc) = true →
      (∀ k, 2 ≤ k → k ≤ N + 1 → taken (suffixed (slugBase nfkd dl doc) k) = true) →
      taken (suffixed (slugBase nfkd dl doc) (N + 2)) = false →
      N + 2 ≤ fuel →
      ensureUniqueSlug nfkd dl taken doc fuel =
        some (suffixed (slugBase nfkd dl doc) (N + 2))) := by
  constructor
  · intro r h
    exact slugLoop_free taken (slugBase nfkd dl doc) fuel _ 2 r h
  · intro N hbase htk hsuf hfree hfuel
    show slugLoop taken (slugBase nfkd dl doc) fuel
        (if slugBase nfkd dl doc = "" then "product" else slugBase nfkd dl doc) 2 =
      some (suffixed (slugBase nfkd dl doc) (N + 2))
    rw [if_neg hbase]
    cases fuel with
    | zero => omega
    | succ f =>
      unfold slugLoop
      rw [htk]
      simp only [if_true]
      exact slugLoop_scan taken _ N hsuf hfree f 2 (by omega) (by omega) (by omega)

/-- The concrete entity of the spec's scenario: name `{en: "Caramel
Macchiato"}`, no explicit slug. -/
def pdocCaramel : PDoc :=
  ⟨1, none, some [("en", "Caramel Macchiato")], some "coffee", 0⟩

/-- C1 witness: with `"caramel-macchiato"` already taken (N = 0), the new
entity receives `"caramel-macchiato-2"` — the spec's scenario. -/
theorem claim_C1_witness :
    ensureUniqueSlug id "vi" (fun s => s == "caramel-macchiato") pdocCaramel 5 =
      some "caramel-macchiato-2" := by
  have h := (claim_C1_ensureUniqueSlug id "vi"
      (fun s => s == "caramel-macchiato") pdocCaramel 5).2 0
    (by decide) (by decide)
    (fun k h1 h2 => absurd (Nat.le_trans h1 h2) (by decide))
    (by decide) (by decide)
  have e : suffixed (slugBase id "vi" pdocCaramel) 2 = "caramel-macchiato-2" := by
    decide
  rw [e] at h
  exact h

/-- An entity whose derived base normalizes to empty: all-symbol name,
no explicit slug. -/
def pdocSymbols : PDoc :=
  ⟨2, none, some [("en", "!!!")], some "coffee", 0⟩

/-- C4: the fallback token is used as the initial candidate (first and
third conjuncts), but on collision the loop appends the suffix to the
EMPTY base, so the second trial candidate is the bare `"-2"`, not
`"product-2"` — the code evaluated at the failing input. -/
theorem claim_C4_fallback_suffix_bug :
    slugBase id "vi" pdocSymbols = "" ∧
    ensureUniqueSlug id "vi" (fun _ => false) pdocSymbols 5 = some "product" ∧
    ensureUniqueSlug id "vi" (fun s => s == "product") pdocSymbols 5 =
      some "-2" := by
  refine ⟨by decide, by decide, by decide⟩

/-! ## `productRepo.update` and the save-time hooks -/

/-- The update payload: `some` means the property is present in the body
(`slug` only as a string — non-string slugs are outside the model). -/
structure UData where
  slug : Option String
  name_i18n : Option Bundle
  category : Option String
  price : Option Int
deriving DecidableEq

/-- `Object.assign(doc, data)`: every property present in the payload
overwrites the document's. -/
def assignData (doc : PDoc) (d : UData) : PDoc :=
  { doc with
    slug := match d.slug with | some s => some s | none => doc.slug,
    name_i18n := match d.name_i18n with | some b => some b | none => doc.name_i18n,
    category := match d.category with | some c => some c | none => doc.category,
    price := match d.price with | some p => p | none => doc.price }

/-- `doc.name_i18n?.en || doc.name_i18n?.[DEFAULT_LOCALE] || doc.name_i18n?.vi || ""`
— the name a slug is derived from in `productRepo.update`. -/
def nameBase (dl : String) (nm : Option Bundle) : String :=
  firstTruthy [bField nm "en", bField nm dl, bField nm "vi"] ""

/-- `productRepo.update` body (after `findById`): remember the old name
base, merge the payload, then re-slug only when the body carries a
non-blank explicit slug or the derived name base changed. -/
def repoUpdate (nfkd : String → String) (dl : String)
    (doc : PDoc) (d : UData) : PDoc :=
  let oldNameBase := nameBase dl doc.name_i18n
  let merged := assignData doc d
  let newNameBase := nameBase dl merged.name_i18n
  match d.slug with
  | some s =>
    if jsTrim s ≠ "" then { merged with slug := some (slugify nfkd s) }
    else if newNameBase ≠ "" ∧ newNameBase ≠ oldNameBase then
      { merged with slug := some (slugify nfkd newNameBase) }
    else merged
  | none =>
    if newNameBase ≠ "" ∧ newNameBase ≠ oldNameBase then
      { merged with slug := some (slugify nfkd newNameBase) }
    else merged

/-- `ProductSchema.pre('validate')`: derive the slug from the name when it
is unset, otherwise normalize the explicit one. -/
def preValidate (nfkd : String → String) (dl : String) (doc : PDoc) : PDoc :=
  match truthy doc.slug with
  | some s => { doc with slug := some (slugify nfkd s) }
  | none =>
    { doc with slug := some (slugify nfkd (firstTruthy
        [bField doc.name_i18n "en", bField doc.name_i18n dl,
         bField doc.name_i18n "vi"] "product")) }

/-- `ProductSchema.pre('save')`: run `ensureUniqueSlug` only for new
documents or when the slug path was modified since load (mongoose marks a
primitive path modified exactly when its value differs from the loaded
one). -/
def preSave (nfkd : String → String) (dl : String) (taken : String → Bool)
    (isNew : Bool) (loadedSlug : Option String) (doc : PDoc) (fuel : Nat) :
    Option PDoc :=
  if isNew || decide (doc.slug ≠ loadedSlug) then
    (ensureUniqueSlug nfkd dl taken doc fuel).map
      (fun c => { doc with slug := some c })
  else some doc

/-- The whole update path: `productRepo.update` then `doc.save()` (which
runs the validate hook, then the save hook). -/
def updateRun (nfkd : String → String) (dl : String) (taken : String → Bool)
    (doc : PDoc) (d : UData) (fuel : Nat) : Option PDoc :=
  preSave nfkd dl taken false doc.slug
    (preValidate nfkd dl (repoUpdate nfkd dl doc d)) fuel

/-- C3 (amended): an update whose payload does not carry the explicit slug
field and does not change the derived name base leaves the stored slug
unchanged, provided the stored slug is non-empty and already in normalized
form (which every slug written through `slugify` is, the empty-base
collision fallback excepted); the other submitted fields go through. -/
theorem claim_C3_slug_stability (nfkd : String → String) (dl : String)
    (taken : String → Bool) (doc : PDoc) (d : UData) (fuel : Nat) (s : String)
    (hslug : d.slug = none)
    (hname : nameBase dl (assignData doc d).name_i18n = nameBase dl doc.name_i18n)
    (hstored : doc.slug = some s)
    (hs : s ≠ "")
    (hnorm : slugify nfkd s = s) :
    ∃ d', updateRun nfkd dl taken doc d fuel = some d' ∧
      d'.slug = some s ∧
      d'.price = (match d.price with | some p => p | none => doc.price) ∧
      d'.category = (match d.category with | some c => some c | none => doc.category) ∧
      d'.name_i18n = (match d.name_i18n with | some b => some b | none => doc.name_i18n) := by
  have hmergedSlug : (assignData doc d).slug = some s := by
    unfold assignData
    rw [hslug]
    exact hstored
  have hrepo : repoUpdate nfkd dl doc d = assignData doc d := by
    unfold repoUpdate
    rw [hslug]
    simp only [hname]
    rw [if_neg (by intro hcon; exact hcon.2 rfl)]
  have htr : truthy (some s) = some s := by
    show (if s = "" then none else some s) = some s
    rw [if_neg hs]
  have hvalid : preValidate nfkd dl (assignData doc d) = assignData doc d := by
    unfold preValidate
    rw [hmergedSlug, htr]
    show ({ assignData doc d with slug := some (slugify nfkd s) }) = assignData doc d
    rw [hnorm, ← hmergedSlug]
  refine ⟨assignData doc d, ?_, hmergedSlug, rfl, rfl, rfl⟩
  unfold updateRun
  rw [hrepo, hvalid]
  unfold preSave
  rw [hmergedSlug, hstored]
  simp

/-- C3 witness: updating only the price of a stored `"widget"` product
leaves the slug `"widget"` and applies the price. -/
theorem claim_C3_witness :
    ∃ d', updateRun id "vi" (fun _ => false)
        ⟨4, some "widget", some [("en", "x")], some "coffee", 10⟩
        ⟨none, none, none, some 25⟩ 3 = some d' ∧
      d'.slug = some "widget" ∧ d'.price = 25 ∧
      d'.category = some "coffee" ∧ d'.name_i18n = some [("en", "x")] :=
  claim_C3_slug_stability id "vi" (fun _ => false)
    ⟨4, some "widget", some [("en", "x")], some "coffee", 10⟩
    ⟨none, none, none, some 25⟩ 3 "widget" rfl rfl rfl
    (by decide) (by decide)

/-- A stored document whose slug is the bare `"-2"` that the empty-base
collision path of `ensureUniqueSlug` produces. -/
def pdocBareSuffix : PDoc := ⟨3, some "-2", some [("en", "x")], some "coffee", 0⟩

/-- C3 counterexample: an update with an empty payload (no slug, no name
change) against the stored slug `"-2"` rewrites the slug to `"2"` — the
claim as stated fails for this reachable entity. -/
theorem claim_C3_counterexample :
    (updateRun id "vi" (fun _ => false) pdocBareSuffix ⟨none, none, none, none⟩ 3).map
        PDoc.slug = some (some "2") ∧
      pdocBareSuffix.slug = some "-2" := by
  exact ⟨by decide, rfl⟩

/-! ## `ensureUniqueName` and `productRepo.create` -/

/-- A stored product row as the name-uniqueness `$or` filter reads it. -/
structure PRow where
  id : Nat
  category : String
  name_vi : Option String
  name_en : Option String
deriving DecidableEq

/-- The product collection. -/
abbrev DB := List PRow

/-- The typed conflict error thrown by `ensureUniqueName`. -/
structure DupError where
  code : String
  message : String
deriving DecidableEq

def dupNameError : DupError :=
  ⟨"PRODUCT_NAME_DUPLICATE", "Product name already exists in this category"⟩

/-- The `$or` clause: `{"name_i18n.vi": v}` and/or `{"name_i18n.en": v}`,
each pushed only when the submitted value is truthy; a clause matches a
row whose stored field equals the value. -/
def nameFilterMatches (viVal enVal : Option String) (e : PRow) : Bool :=
  (match viVal with | some v => e.name_vi == some v | none => false) ||
  (match enVal with | some v => e.name_en == some v | none => false)

/-- The full `exists` filter: same category, `$or` name match, and
`_id: {$ne: excludeId}` when excluding the document itself. -/
def rowMatches (c : String) (viVal enVal : Option String)
    (excludeId : Option Nat) (e : PRow) : Bool :=
  e.category == c && nameFilterMatches viVal enVal e &&
    (match excludeId with | some i => !(e.id == i) | none => true)

/-- `ensureUniqueName` from the product repository: no-op when category or
name is absent (or category is the empty string, falsy in JS) or when the
`$or` list would be empty; otherwise throw `PRODUCT_NAME_DUPLICATE` iff a
row matches. -/
def ensureUniqueName (db : DB) (category : Option String)
    (name : Option Bundle) (excludeId : Option Nat) : Except DupError Unit :=
  match truthy category, name with
  | none, _ => .ok ()
  | some _, none => .ok ()
  | some c, some nm =>
    let viVal := truthy (bLookup nm "vi")
    let enVal := truthy (bLookup nm "en")
    if viVal = none ∧ enVal = none then .ok ()
    else if db.any (rowMatches c viVal enVal excludeId) then .error dupNameError
    else .ok ()

/-- The create payload. -/
structure CreateData where
  category : Option String
  name_i18n : Option Bundle
  price : Int
deriving DecidableEq

def DEFAULT_CATEGORY : String := "coffee"

/-- `productRepo.create`: default the category, run `ensureUniqueName`
(throwing aborts before any write), then `doc.save()` persists the new
row. -/
def repoCreate (db : DB) (d : CreateData) (freshId : Nat) :
    DB × Except DupError Unit :=
  let category := firstTruthy [d.category] DEFAULT_CATEGORY
  match ensureUniqueName db (some category) d.name_i18n none with
  | .error e => (db, .error e)
  | .ok _ =>
    (db ++ [⟨freshId, category, bField d.name_i18n "vi", bField d.name_i18n "en"⟩],
     .ok ())

theorem rowMatches_iff (c : String) (viVal enVal : Option String)
    (excludeId : Option Nat) (e : PRow) :
    rowMatches c viVal enVal excludeId e = true ↔
      e.category = c ∧
      ((∃ v, viVal = some v ∧ e.name_vi = some v) ∨
       (∃ v, enVal = some v ∧ e.name_en = some v)) ∧
      (∀ i, excludeId = some i → e.id ≠ i) := by
  unfold rowMatches nameFilterMatches
  cases viVal with
  | none =>
    cases enVal with
    | none =>
      simp only [Bool.false_or, Bool.and_eq_true, beq_iff_eq]
      constructor
      · intro h; exact absurd h.1.2 (by simp)
      · rintro ⟨_, (⟨v, hv, _⟩ | ⟨v, hv, _⟩), _⟩ <;> exact absurd hv (by simp)
    | some w =>
      cases excludeId with
      | none =>
        simp only [Bool.false_or, Bool.and_true, Bool.and_eq_true, beq_iff_eq]
        constructor
        · rintro ⟨h1, h2⟩
          exact ⟨h1, Or.inr ⟨w, rfl, h2⟩, by simp⟩
        · rintro ⟨h1, (⟨v, hv, _⟩ | ⟨v, hv, he⟩), _⟩
          · exact absurd hv (by simp)
          · cases hv; exact ⟨h1, he⟩
      | some i =>
        simp only [Bool.false_or, Bool.and_eq_true, beq_iff_eq, Bool.not_eq_true',
          beq_eq_false_iff_ne]
        constructor
        · rintro ⟨⟨h1, h2⟩, h3⟩
          exact ⟨h1, Or.inr ⟨w, rfl, h2⟩, fun j hj => by cases hj; exact h3⟩
        · rintro ⟨h1, (⟨v, hv, _⟩ | ⟨v, hv, he⟩), h3⟩
          · exact absurd hv (by simp)
          · cases hv; exact ⟨⟨h1, he⟩, h3 i rfl⟩
  | some w =>
    cases excludeId with
    | none =>
      simp only [Bool.and_true, Bool.and_eq_true, Bool.or_eq_true, beq_iff_eq]
      constructor
      · rintro ⟨h1, h2⟩
        refine ⟨h1, ?_, by simp⟩
        rcases h2 with h2 | h2
        · exact Or.inl ⟨w, rfl, h2⟩
        · cases enVal with
          | none => exact absurd h2 (by simp)
          | some u => exact Or.inr ⟨u, rfl, by simpa using h2⟩
      · rintro ⟨h1, (⟨v, hv, he⟩ | ⟨v, hv, he⟩), _⟩
        · cases hv; exact ⟨h1, Or.inl he⟩
        · refine ⟨h1, Or.inr ?_⟩
          cases enVal with
          | none => exact absurd hv (by simp)
          | some u => cases hv; simpa using he
    | some i =>
      simp only [Bool.and_eq_true, Bool.or_eq_true, beq_iff_eq, Bool.not_eq_true',
        beq_eq_false_iff_ne]
      constructor
      · rintro ⟨⟨h1, h2⟩, h3⟩
        refine ⟨h1, ?_, fun j hj => by cases hj; exact h3⟩
        rcases h2 with h2 | h2
        · exact Or.inl ⟨w, rfl, h2⟩
        · cases enVal with
          | none => exact absurd h2 (by simp)
          | some u => exact Or.inr ⟨u, rfl, by simpa using h2⟩
      · rintro ⟨h1, (⟨v, hv, he⟩ | ⟨v, hv, he⟩), h3⟩
        · cases hv; exact ⟨⟨h1, Or.inl he⟩, h3 i rfl⟩
        · refine ⟨⟨h1, Or.inr ?_⟩, h3 i rfl⟩
          cases enVal with
          | none => exact absurd hv (by simp)
          | some u => cases hv; simpa using he

/-- When the `$or` list would be empty (no truthy `vi` or `en` entry in
the submitted bundle), the check is a no-op. -/
theorem ensureUniqueName_ok_of_empty_or (db : DB) (category : Option String)
    (excludeId : Option Nat) (nm : Bundle)
    (hvi : truthy (bLookup nm "vi") = none)
    (hen : truthy (bLookup nm "en") = none) :
    ensureUniqueName db category (some nm) excludeId = .ok () := by
  unfold ensureUniqueName
  cases htc : truthy category with
  | none => rfl
  | some c =>
    show (if truthy (bLookup nm "vi") = none ∧ truthy (bLookup nm "en") = none
          then Except.ok ()
          else if db.any (rowMatches c (truthy (bLookup nm "vi"))
              (truthy (bLookup nm "en")) excludeId) = true
            then Except.error dupNameError else Except.ok ()) = Except.ok ()
    rw [if_pos ⟨hvi, hen⟩]

/-- C2: with a (truthy) category and a name bundle present,
`ensureUniqueName` signals exactly `PRODUCT_NAME_DUPLICATE`, and it does
so iff another row (honouring the self-exclusion) shares the category and
equals the submitted name in at least one of its supplied locales; rows
of a different category never trigger it; absence of category or name
short-circuits to a no-op; and a rejected create leaves the collection
unchanged. -/
theorem claim_C2_enforce_name_uniqueness (db : DB) (category : Option String)
    (name : Option Bundle) (excludeId : Option Nat) :
    (truthy category = none →
      ensureUniqueName db category name excludeId = .ok ()) ∧
    (name = none → ensureUniqueName db category name excludeId = .ok ()) ∧
    (∀ c nm, truthy category = some c → name = some nm →
      (ensureUniqueName db category name excludeId = .error dupNameError ↔
        ∃ e ∈ db, e.category = c ∧
          ((∃ v, truthy (bLookup nm "vi") = some v ∧ e.name_vi = some v) ∨
           (∃ v, truthy (bLookup nm "en") = some v ∧ e.name_en = some v)) ∧
          (∀ i, excludeId = some i → e.id ≠ i))) ∧
    (∀ c nm, truthy category = some c → name = some nm →
      (∀ e ∈ db, e.category ≠ c) →
      ensureUniqueName db category name excludeId = .ok ()) ∧
    (∀ r, ensureUniqueName db category name excludeId = .error r →
      r = dupNameError) ∧
    (∀ (d : CreateData) (freshId : Nat) (e : DupError),
      (repoCreate db d freshId).2 = .error e → (repoCreate db d freshId).1 = db) := by
  have key : ∀ c nm, truthy category = some c → name = some nm →
      (ensureUniqueName db category name excludeId = .error dupNameError ↔
        ∃ e ∈ db, e.category = c ∧
          ((∃ v, truthy (bLookup nm "vi") = some v ∧ e.name_vi = some v) ∨
           (∃ v, truthy (bLookup nm "en") = some v ∧ e.name_en = some v)) ∧
          (∀ i, excludeId = some i → e.id ≠ i)) := by
    intro c nm hc hn
    subst hn
    unfold ensureUniqueName
    rw [hc]
    show ((if truthy (bLookup nm "vi") = none ∧ truthy (bLookup nm "en") = none
          then Except.ok ()
          else if db.any (rowMatches c (truthy (bLookup nm "vi"))
              (truthy (bLookup nm "en")) excludeId) = true
            then Except.error dupNameError else Except.ok ()) =
        Except.error dupNameError) ↔ _
    by_cases hor : truthy (bLookup nm "vi") = none ∧ truthy (bLookup nm "en") = none
    · rw [if_pos hor]
      constructor
      · intro h; exact absurd h (by simp)
      · rintro ⟨e, _, _, (⟨v, hv, _⟩ | ⟨v, hv, _⟩), _⟩
        · rw [hor.1] at hv; exact absurd hv (by simp)
        · rw [hor.2] at hv; exact absurd hv (by simp)
    · rw [if_neg hor]
      by_cases hany : db.any (rowMatches c (truthy (bLookup nm "vi"))
          (truthy (bLookup nm "en")) excludeId) = true
      · rw [if_pos hany]
        constructor
        · intro _
          obtain ⟨e, he, hm⟩ := List.any_eq_true.mp hany
          exact ⟨e, he, (rowMatches_iff _ _ _ _ _).mp hm⟩
        · intro _; rfl
      · rw [if_neg hany]
        constructor
        · intro h; exact absurd h (by simp)
        · rintro ⟨e, he, hm⟩
          exact absurd (List.any_eq_true.mpr ⟨e, he, (rowMatches_iff _ _ _ _ _).mpr hm⟩) hany
  refine ⟨?_, ?_, key, ?_, ?_, ?_⟩
  · intro h
    unfold ensureUniqueName
    rw [h]
  · intro h
    subst h
    unfold ensureUniqueName
    cases truthy category <;> rfl
  · intro c nm hc hn hdiff
    cases hr : ensureUniqueName db category name excludeId with
    | ok u => rfl
    | error r =>
      have hrd : r = dupNameError := by
        subst hn
        unfold ensureUniqueName at hr
        rw [hc] at hr
        revert hr
        show ((if truthy (bLookup nm "vi") = none ∧ truthy (bLookup nm "en") = none
              then Except.ok ()
              else if db.any (rowMatches c (truthy (bLookup nm "vi"))
                  (truthy (bLookup nm "en")) excludeId) = true
                then Except.error dupNameError else Except.ok ()) =
            Except.error r) → r = dupNameError
        intro hr
        by_cases hor : truthy (bLookup nm "vi") = none ∧ truthy (bLookup nm "en") = none
        · rw [if_pos hor] at hr; exact absurd hr (by simp)
        · rw [if_neg hor] at hr
          by_cases hany : db.any (rowMatches c (truthy (bLookup nm "vi"))
              (truthy (bLookup nm "en")) excludeId) = true
          · rw [if_pos hany] at hr
            injection hr with h'
            exact h'.symm
          · rw [if_neg hany] at hr; exact absurd hr (by simp)
      subst hrd
      obtain ⟨e, he, hcat, _, _⟩ := (key c nm hc hn).mp hr
      exact absurd hcat (hdiff e he)
  · intro r hr
    unfold ensureUniqueName at hr
    cases htc : truthy category with
    | none => rw [htc] at hr; cases name <;> exact absurd hr (by simp)
    | some c =>
      rw [htc] at hr
      cases name with
      | none => exact absurd hr (by simp)
      | some nm =>
        revert hr
        show ((if truthy (bLookup nm "vi") = none ∧ truthy (bLookup nm "en") = none
              then Except.ok ()
              else if db.any (rowMatches c (truthy (bLookup nm "vi"))
                  (truthy (bLookup nm "en")) excludeId) = true
                then Except.error dupNameError else Except.ok ()) =
            Except.error r) → r = dupNameError
        intro hr
        by_cases hor : truthy (bLookup nm "vi") = none ∧ truthy (bLookup nm "en") = none
        · rw [if_pos hor] at hr; exact absurd hr (by simp)
        · rw [if_neg hor] at hr
          by_cases hany : db.any (rowMatches c (truthy (bLookup nm "vi"))
              (truthy (bLookup nm "en")) excludeId) = true
          · rw [if_pos hany] at hr
            injection hr with h'
            exact h'.symm
          · rw [if_neg hany] at hr; exact absurd hr (by simp)
  · intro d freshId e h
    simp only [repoCreate] at h ⊢
    cases hm : ensureUniqueName db
        (some (firstTruthy [d.category] DEFAULT_CATEGORY)) d.name_i18n none with
    | error e' => rfl
    | ok u => rw [hm] at h; exact absurd h (by simp)

/-- C2 witness: a second `"Latte"` in category `"coffee"` is rejected with
`PRODUCT_NAME_DUPLICATE`; the same name in category `"tea"` is allowed. -/
theorem claim_C2_witness :
    ensureUniqueName [⟨9, "coffee", none, some "Latte"⟩] (some "coffee")
        (some [("en", "Latte")]) none = .error dupNameError ∧
    ensureUniqueName [⟨9, "tea", none, some "Latte"⟩] (some "coffee")
        (some [("en", "Latte")]) none = .ok () := by
  constructor
  · exact ((claim_C2_enforce_name_uniqueness [⟨9, "coffee", none, some "Latte"⟩]
        (some "coffee") (some [("en", "Latte")]) none).2.2.1 "coffee"
        [("en", "Latte")] (by decide) rfl).mpr
      ⟨⟨9, "coffee", none, some "Latte"⟩, by simp, rfl,
       Or.inr ⟨"Latte", by decide, rfl⟩, by simp⟩
  · exact (claim_C2_enforce_name_uniqueness [⟨9, "tea", none, some "Latte"⟩]
      (some "coffee") (some [("en", "Latte")]) none).2.2.2.1 "coffee"
      [("en", "Latte")] (by decide) rfl (by decide)

/-- C10: a name bundle with no truthy `vi` or `en` entry (for example a
name given only in a third locale) never raises the name conflict — the
`$or` filter is built only from the `vi`/`en` keys and the empty list
short-circuits — and the create proceeds and appends the new row. -/
theorem claim_C10_third_locale_never_conflicts (db : DB)
    (category : Option String) (excludeId : Option Nat) (nm : Bundle)
    (hvi : truthy (bLookup nm "vi") = none)
    (hen : truthy (bLookup nm "en") = none) :
    ensureUniqueName db category (some nm) excludeId = .ok () ∧
    (∀ (d : CreateData) (freshId : Nat), d.name_i18n = some nm →
      (repoCreate db d freshId).2 = .ok () ∧
      (repoCreate db d freshId).1 =
        db ++ [⟨freshId, firstTruthy [d.category] DEFAULT_CATEGORY,
                bField d.name_i18n "vi", bField d.name_i18n "en"⟩]) := by
  refine ⟨ensureUniqueName_ok_of_empty_or db category excludeId nm hvi hen, ?_⟩
  intro d freshId hd
  have hok : ensureUniqueName db
      (some (firstTruthy [d.category] DEFAULT_CATEGORY)) d.name_i18n none =
      .ok () := by
    rw [hd]
    exact ensureUniqueName_ok_of_empty_or db _ none nm hvi hen
  constructor <;> simp only [repoCreate, hok]

/-- C10 witness: a cake named only in French is created even though an
existing cake carries the same text as its `vi`/`en` name. -/
theorem claim_C10_witness :
    ensureUniqueName [⟨9, "cake", some "Tarte", some "Tarte"⟩] (some "cake")
        (some [("fr", "Tarte")]) none = .ok () ∧
    (repoCreate [⟨9, "cake", some "Tarte", some "Tarte"⟩]
        ⟨some "cake", some [("fr", "Tarte")], 5⟩ 10).2 = .ok () := by
  have h := claim_C10_third_locale_never_conflicts
    [⟨9, "cake", some "Tarte", some "Tarte"⟩] (some "cake") none
    [("fr", "Tarte")] (by decide) (by decide)
  exact ⟨h.1, (h.2 ⟨some "cake", some [("fr", "Tarte")], 5⟩ 10 rfl).1⟩

/-! ## LocaleResolver: `pickLocalizedValue` -/

/-- A localized field value as `pickLocalizedValue` receives it: absent
(undefined/null), an already-resolved plain string, or a locale bundle. -/
inductive LocVal
  | vNone
  | vStr (s : String)
  | vBundle (b : Bundle)
deriving DecidableEq

/-- JS truthiness of such a value (the `!value` guard): undefined and the
empty string are falsy; every object, even `{}`, is truthy. -/
def LocVal.falsy : LocVal → Bool
  | .vNone => true
  | .vStr s => s == ""
  | .vBundle _ => false

/-- The `for (const loc of locales)` loop: return the first locale's value
that is a non-empty (after trimming) string. -/
def pickLoop (b : Bundle) : List String → Option String
  | [] => none
  | loc :: rest =>
    match bLookup b loc with
    | some v => if jsTrim v ≠ "" then some v else pickLoop b rest
    | none => pickLoop b rest

/-- `pickLocalizedValue` from the product controller. -/
def pickLocalizedValue (value : LocVal) (locales : List String) : Option String :=
  if value.falsy then none
  else
    match value with
    | .vStr s => some s
    | .vBundle b => pickLoop b locales
    | .vNone => none

/-- Modelled from the spec's words (C6 reference semantics): the value at
the first locale of the chain whose bundle entry is non-empty after
trimming, returned verbatim. -/
def firstNonEmptySpec (b : Bundle) (chain : List String) : Option String :=
  (chain.find? (fun loc =>
    match bLookup b loc with
    | some v => decide (jsTrim v ≠ "")
    | none => false)).bind (bLookup b)

theorem pickLoop_eq_spec (b : Bundle) (chain : List String) :
    pickLoop b chain = firstNonEmptySpec b chain := by
  induction chain with
  | nil => rfl
  | cons loc rest ih =>
    unfold pickLoop firstNonEmptySpec
    cases hl : bLookup b loc with
    | some v =>
      show (if jsTrim v ≠ "" then some v else pickLoop b rest) = _
      by_cases hv : jsTrim v ≠ ""
      · rw [if_pos hv]
        rw [List.find?_cons_of_pos _ (by rw [hl]; simpa using hv)]
        simp [hl]
      · rw [if_neg hv]
        rw [List.find?_cons_of_neg _ (by rw [hl]; simpa using hv)]
        exact ih
    | none =>
      show pickLoop b rest = _
      rw [List.find?_cons_of_neg _ (by rw [hl]; simp)]
      exact ih

theorem pickLoop_mem {b : Bundle} {chain : List String} {v : String}
    (h : pickLoop b chain = some v) :
    ∃ loc ∈ chain, bLookup b loc = some v ∧ jsTrim v ≠ "" := by
  induction chain with
  | nil => exact absurd h (by simp [pickLoop])
  | cons loc rest ih =>
    unfold pickLoop at h
    cases hl : bLookup b loc with
    | some w =>
      rw [hl] at h
      have h' : (if jsTrim w ≠ "" then some w else pickLoop b rest) = some v := h
      by_cases hw : jsTrim w ≠ ""
      · rw [if_pos hw] at h'
        cases h'
        exact ⟨loc, List.mem_cons_self loc rest, hl, hw⟩
      · rw [if_neg hw] at h'
        obtain ⟨l', hl', hb, ht⟩ := ih h'
        exact ⟨l', List.mem_cons_of_mem loc hl', hb, ht⟩
    | none =>
      rw [hl] at h
      obtain ⟨l', hl', hb, ht⟩ := ih h
      exact ⟨l', List.mem_cons_of_mem loc hl', hb, ht⟩

theorem pickLoop_none {b : Bundle} {chain : List String}
    (h : ∀ loc ∈ chain, ∀ v, bLookup b loc = some v → jsTrim v = "") :
    pickLoop b chain = none := by
  induction chain with
  | nil => rfl
  | cons loc rest ih =>
    unfold pickLoop
    cases hl : bLookup b loc with
    | some w =>
      have hw := h loc (List.mem_cons_self loc rest) w hl
      show (if jsTrim w ≠ "" then some w else pickLoop b rest) = none
      rw [if_neg (by simp [hw])]
      exact ih (fun l hl' => h l (List.mem_cons_of_mem loc hl'))
    | none =>
      show pickLoop b rest = none
      exact ih (fun l hl' => h l (List.mem_cons_of_mem loc hl'))

theorem pickLoop_nil_bundle (chain : List String) :
    pickLoop [] chain = none := by
  induction chain with
  | nil => rfl
  | cons loc rest ih => simpa [pickLoop, bLookup] using ih

/-- C6 counterexample: the claim says a plain-string bundle is "returned
unchanged", but the empty plain string hits the JS falsy guard and yields
absent, not `""`. -/
theorem claim_C6_counterexample :
    pickLocalizedValue (.vStr "") ["en"] = none ∧
      (none : Option String) ≠ some "" := by
  exact ⟨rfl, by simp⟩

/-- C6 (amended): for a bundle, `pickLocalizedValue` returns the value of
the first locale in the chain whose entry is non-empty after trimming,
verbatim; it returns absent when no key qualifies or the value is
absent/an empty bundle; a plain NON-EMPTY string is returned unchanged,
while the empty plain string (JS-falsy) yields absent. -/
theorem claim_C6_pick_localized_value (b : Bundle) (chain : List String)
    (s : String) :
    (pickLocalizedValue (.vBundle b) chain = firstNonEmptySpec b chain) ∧
    (∀ v, pickLocalizedValue (.vBundle b) chain = some v →
      ∃ loc ∈ chain, bLookup b loc = some v ∧ jsTrim v ≠ "") ∧
    ((∀ loc ∈ chain, ∀ v, bLookup b loc = some v → jsTrim v = "") →
      pickLocalizedValue (.vBundle b) chain = none) ∧
    (pickLocalizedValue .vNone chain = none) ∧
    (pickLocalizedValue (.vBundle []) chain = none) ∧
    (s ≠ "" → pickLocalizedValue (.vStr s) chain = some s) ∧
    (pickLocalizedValue (.vStr "") chain = none) := by
  refine ⟨pickLoop_eq_spec b chain, ?_, ?_, rfl, pickLoop_nil_bundle chain, ?_, rfl⟩
  · intro v h
    exact pickLoop_mem h
  · intro h
    exact pickLoop_none h
  · intro hs
    show (if (s == "") = true then none else some s) = some s
    rw [if_neg (by simpa using hs)]

/-- C6 witness: the spec's scenario — bundle `{vi: "Ca phe"}`, chain
`["en", "vi"]` falls through to `vi` and returns the value verbatim; a
non-empty plain string passes through. -/
theorem claim_C6_witness :
    pickLocalizedValue (.vBundle [("vi", "Ca phe")]) ["en", "vi"] =
      some "Ca phe" ∧
    pickLocalizedValue (.vStr "hello") ["en"] = some "hello" := by
  have h := claim_C6_pick_localized_value [("vi", "Ca phe")] ["en", "vi"] "hello"
  exact ⟨by decide, h.2.2.2.2.2.1 (by decide)⟩

/-! ## `buildLocalePriority` -/

/-- `Array.from(new Set(...))`: JS `Set` iterates in first-insertion
order, so duplicates are dropped keeping the first occurrence. -/
def dedupFirstGo (seen : List String) : List String → List String
  | [] => []
  | x :: xs =>
    if x ∈ seen then dedupFirstGo seen xs
    else x :: dedupFirstGo (x :: seen) xs

def dedupFirst (l : List String) : List String := dedupFirstGo [] l

/-- The raw candidate list `[locale, "en", DEFAULT_LOCALE, "vi"]` after
the `typeof x === "string" && x.trim().length > 0` filter. -/
def localeCandidates (dl : String) (locale : Option String) : List String :=
  ([locale, some "en", some dl, some "vi"]).filterMap (fun x =>
    match x with
    | some s => if jsTrim s ≠ "" then some s else none
    | none => none)

/-- `buildLocalePriority` from the product controller. -/
def buildLocalePriority (dl : String) (locale : Option String) : List String :=
  dedupFirst (localeCandidates dl locale)

/-- Modelled from the spec's words (C7 reference semantics):
"de-duplicated while preserving first occurrence", as a left fold that
appends an element only when it has not been kept yet. -/
def dedupKeepFirstSpec (l : List String) : List String :=
  l.foldl (fun acc x => if x ∈ acc then acc else acc ++ [x]) []

theorem mem_dedupFirstGo (x : String) :
    ∀ (l seen : List String),
      x ∈ dedupFirstGo seen l ↔ x ∈ l ∧ x ∉ seen := by
  intro l
  induction l with
  | nil => intro seen; simp [dedupFirstGo]
  | cons y ys ih =>
    intro seen
    unfold dedupFirstGo
    by_cases hy : y ∈ seen
    · rw [if_pos hy, ih seen]
      constructor
      · rintro ⟨hx, hns⟩
        exact ⟨List.mem_cons_of_mem y hx, hns⟩
      · rintro ⟨hx, hns⟩
        rcases List.mem_cons.mp hx with rfl | hx'
        · exact absurd hy hns
        · exact ⟨hx', hns⟩
    · rw [if_neg hy]
      constructor
      · intro hx
        rcases List.mem_cons.mp hx with rfl | hx'
        · exact ⟨List.mem_cons_self x ys, hy⟩
        · have := (ih (y :: seen)).mp hx'
          refine ⟨List.mem_cons_of_mem y this.1, fun hs => this.2 (List.mem_cons_of_mem y hs)⟩
      · rintro ⟨hx, hns⟩
        rcases List.mem_cons.mp hx with rfl | hx'
        · exact List.mem_cons_self x _
        · by_cases hxy : x = y
          · subst hxy; exact List.mem_cons_self x _
          · exact List.mem_cons_of_mem y ((ih (y :: seen)).mpr
              ⟨hx', fun hs => by
                rcases List.mem_cons.mp hs with h1 | h2
                · exact hxy h1
                · exact hns h2⟩)

theorem nodup_dedupFirstGo :
    ∀ (l seen : List String), (dedupFirstGo seen l).Nodup := by
  intro l
  induction l with
  | nil => intro seen; simp [dedupFirstGo]
  | cons y ys ih =>
    intro seen
    unfold dedupFirstGo
    by_cases hy : y ∈ seen
    · rw [if_pos hy]; exact ih seen
    · rw [if_neg hy]
      refine List.nodup_cons.mpr ⟨?_, ih (y :: seen)⟩
      intro hmem
      exact ((mem_dedupFirstGo y ys (y :: seen)).mp hmem).2 (List.mem_cons_self y seen)

theorem sublist_dedupFirstGo :
    ∀ (l seen : List String), (dedupFirstGo seen l).Sublist l := by
  intro l
  induction l with
  | nil => intro seen; simp [dedupFirstGo]
  | cons y ys ih =>
    intro seen
    unfold dedupFirstGo
    by_cases hy : y ∈ seen
    · rw [if_pos hy]
      exact (ih seen).cons y
    · rw [if_neg hy]
      exact (ih (y :: seen)).cons₂ y

theorem foldl_dedup_spec :
    ∀ (l acc seen : List String), (∀ x, x ∈ seen ↔ x ∈ acc) →
      l.foldl (fun acc x => if x ∈ acc then acc else acc ++ [x]) acc =
        acc ++ dedupFirstGo seen l := by
  intro l
  induction l with
  | nil => intro acc seen _; simp [dedupFirstGo]
  | cons y ys ih =>
    intro acc seen hiff
    show List.foldl _ (if y ∈ acc then acc else acc ++ [y]) ys = _
    unfold dedupFirstGo
    by_cases hy : y ∈ seen
    · rw [if_pos ((hiff y).mp hy), if_pos hy]
      exact ih acc seen hiff
    · rw [if_neg (fun hc => hy ((hiff y).mpr hc)), if_neg hy]
      rw [ih (acc ++ [y]) (y :: seen) (fun x => by
        rw [List.mem_cons, List.mem_append, List.mem_singleton, hiff x]
        exact or_comm)]
      simp

theorem mem_localeCandidates (dl : String) (locale : Option String) (x : String) :
    x ∈ localeCandidates dl locale ↔
      (locale = some x ∨ x = "en" ∨ x = dl ∨ x = "vi") ∧ jsTrim x ≠ "" := by
  unfold localeCandidates
  rw [List.mem_filterMap]
  constructor
  · rintro ⟨a, ha, hfa⟩
    rcases a with _ | s
    · exact absurd hfa (by simp)
    · have hs : (if jsTrim s ≠ "" then some s else none) = some x := hfa
      by_cases ht : jsTrim s ≠ ""
      · rw [if_pos ht] at hs
        cases hs
        simp only [List.mem_cons, List.not_mem_nil, or_false] at ha
        rcases ha with ha | ha | ha | ha
        · exact ⟨Or.inl ha.symm, ht⟩
        · exact ⟨Or.inr (Or.inl (Option.some.inj ha)), ht⟩
        · exact ⟨Or.inr (Or.inr (Or.inl (Option.some.inj ha))), ht⟩
        · exact ⟨Or.inr (Or.inr (Or.inr (Option.some.inj ha))), ht⟩
      · rw [if_neg ht] at hs
        exact absurd hs (by simp)
  · rintro ⟨hx, ht⟩
    refine ⟨some x, ?_, by simp [ht]⟩
    rcases hx with hx | rfl | rfl | rfl
    · rw [← hx]; exact List.mem_cons_self _ _
    · simp
    · simp
    · simp

/-- C7: `buildLocalePriority` equals the spec's "filter out blank entries,
then de-duplicate preserving first occurrence" (expressed independently as
a fold); it never contains duplicates, never contains empty or
whitespace-only strings, keeps exactly the non-blank candidates from
`[requested, "en", DEFAULT_LOCALE, "vi"]`, and preserves their relative
precedence (it is a sublist of the filtered candidate list). -/
theorem claim_C7_build_locale_priority (dl : String) (locale : Option String) :
    buildLocalePriority dl locale = dedupKeepFirstSpec (localeCandidates dl locale) ∧
    (buildLocalePriority dl locale).Nodup ∧
    (∀ x ∈ buildLocalePriority dl locale, jsTrim x ≠ "") ∧
    (∀ x, x ∈ buildLocalePriority dl locale ↔
      (locale = some x ∨ x = "en" ∨ x = dl ∨ x = "vi") ∧ jsTrim x ≠ "") ∧
    (buildLocalePriority dl locale).Sublist (localeCandidates dl locale) := by
  have hmem : ∀ x, x ∈ buildLocalePriority dl locale ↔
      x ∈ localeCandidates dl locale := by
    intro x
    unfold buildLocalePriority dedupFirst
    rw [mem_dedupFirstGo]
    simp
  refine ⟨?_, nodup_dedupFirstGo _ _, ?_, ?_, sublist_dedupFirstGo _ _⟩
  · unfold dedupKeepFirstSpec buildLocalePriority dedupFirst
    rw [foldl_dedup_spec _ [] [] (by simp)]
    simp
  · intro x hx
    exact ((mem_localeCandidates dl locale x).mp ((hmem x).mp hx)).2
  · intro x
    rw [hmem x]
    exact mem_localeCandidates dl locale x

/-! ## `attachMetaFields` -/

/-- The document as the controller's `attachMetaFields` sees it (`slug`
and `price` stand for the untouched remaining fields). -/
structure PView where
  name_i18n : LocVal
  shortDescription_i18n : LocVal
  description_i18n : LocVal
  seoTitle_i18n : LocVal
  seoDescription_i18n : LocVal
  slug : String
  price : Int
  metaTitle : Option String
  metaDescription : Option String
deriving DecidableEq

/-- JS `a || b` on string-or-undefined results. -/
def jsOrOpt (a b : Option String) : Option String :=
  match a with
  | some s => if s = "" then b else some s
  | none => b

/-- `attachMetaFields` from the product controller:
`{...product, metaTitle, metaDescription}`. -/
def attachMetaFields (dl : String) (product : PView) (locale : String) : PView :=
  let locales := buildLocalePriority dl (some locale)
  { product with
    metaTitle := jsOrOpt (pickLocalizedValue product.seoTitle_i18n locales)
      (pickLocalizedValue product.name_i18n locales),
    metaDescription := jsOrOpt (pickLocalizedValue product.seoDescription_i18n locales)
      (jsOrOpt (pickLocalizedValue product.shortDescription_i18n locales)
        (pickLocalizedValue product.description_i18n locales)) }

/-- Modelled from the spec's words (C8 reference semantics): the first
candidate bundle that resolves to a non-empty value via the chain. -/
def resolveFirstSpec (cands : List LocVal) (chain : List String) : Option String :=
  match cands with
  | [] => none
  | c :: rest =>
    match pickLocalizedValue c chain with
    | some v => some v
    | none => resolveFirstSpec rest chain

theorem pickLocalizedValue_ne_empty {v : LocVal} {chain : List String} {s : String}
    (h : pickLocalizedValue v chain = some s) : s ≠ "" := by
  unfold pickLocalizedValue at h
  cases v with
  | vNone => exact absurd h (by simp [LocVal.falsy])
  | vStr t =>
    have h' : (if (t == "") = true then none else some t) = some s := h
    by_cases ht : (t == "") = true
    · rw [if_pos ht] at h'
      exact absurd h' (by simp)
    · rw [if_neg ht] at h'
      cases h'
      simpa using ht
  | vBundle b =>
    have h' : pickLoop b chain = some s := h
    obtain ⟨_, _, _, ht⟩ := pickLoop_mem h'
    intro hs
    subst hs
    exact ht rfl

theorem jsOrOpt_pick (v : LocVal) (chain : List String) (b : Option String) :
    jsOrOpt (pickLocalizedValue v chain) b =
      match pickLocalizedValue v chain with
      | some s => some s
      | none => b := by
  cases hp : pickLocalizedValue v chain with
  | some s =>
    show (if s = "" then b else some s) = some s
    rw [if_neg (pickLocalizedValue_ne_empty hp)]
  | none => rfl

/-- C8: `attachMetaFields` sets `metaTitle` to the first non-empty of the
seoTitle then name bundles resolved via the priority chain, and
`metaDescription` to the first non-empty of the seoDescription,
shortDescription then description bundles; each meta field is absent when
no candidate resolves; every other field is unchanged. -/
theorem claim_C8_attach_meta_fields (dl : String) (p : PView) (locale : String) :
    (attachMetaFields dl p locale).metaTitle =
      resolveFirstSpec [p.seoTitle_i18n, p.name_i18n]
        (buildLocalePriority dl (some locale)) ∧
    (attachMetaFields dl p locale).metaDescription =
      resolveFirstSpec [p.seoDescription_i18n, p.shortDescription_i18n,
        p.description_i18n] (buildLocalePriority dl (some locale)) ∧
    (pickLocalizedValue p.seoTitle_i18n (buildLocalePriority dl (some locale)) = none →
      pickLocalizedValue p.name_i18n (buildLocalePriority dl (some locale)) = none →
      (attachMetaFields dl p locale).metaTitle = none) ∧
    (attachMetaFields dl p locale).name_i18n = p.name_i18n ∧
    (attachMetaFields dl p locale).shortDescription_i18n = p.shortDescription_i18n ∧
    (attachMetaFields dl p locale).description_i18n = p.description_i18n ∧
    (attachMetaFields dl p locale).seoTitle_i18n = p.seoTitle_i18n ∧
    (attachMetaFields dl p locale).seoDescription_i18n = p.seoDescription_i18n ∧
    (attachMetaFields dl p locale).slug = p.slug ∧
    (attachMetaFields dl p locale).price = p.price := by
  have htitle : (attachMetaFields dl p locale).metaTitle =
      resolveFirstSpec [p.seoTitle_i18n, p.name_i18n]
        (buildLocalePriority dl (some locale)) := by
    show jsOrOpt (pickLocalizedValue p.seoTitle_i18n _) _ = _
    rw [jsOrOpt_pick]
    unfold resolveFirstSpec
    cases pickLocalizedValue p.seoTitle_i18n (buildLocalePriority dl (some locale)) with
    | some s => rfl
    | none =>
      show pickLocalizedValue p.name_i18n _ = _
      unfold resolveFirstSpec
      cases pickLocalizedValue p.name_i18n (buildLocalePriority dl (some locale)) <;> rfl
  refine ⟨htitle, ?_, ?_, rfl, rfl, rfl, rfl, rfl, rfl, rfl⟩
  · show jsOrOpt (pickLocalizedValue p.seoDescription_i18n _) _ = _
    rw [jsOrOpt_pick, jsOrOpt_pick]
    unfold resolveFirstSpec
    cases pickLocalizedValue p.seoDescription_i18n (buildLocalePriority dl (some locale)) with
    | some s => rfl
    | none =>
      unfold resolveFirstSpec
      cases pickLocalizedValue p.shortDescription_i18n (buildLocalePriority dl (some locale)) with
      | some s => rfl
      | none =>
        unfold resolveFirstSpec
        cases pickLocalizedValue p.description_i18n (buildLocalePriority dl (some locale)) <;> rfl
  · intro h1 h2
    rw [htitle]
    unfold resolveFirstSpec
    rw [h1]
    unfold resolveFirstSpec
    rw [h2]
    rfl

/-- A concrete product view: English seo title absent, English name
`"Mocha"`. -/
def pviewMocha : PView :=
  ⟨.vBundle [("en", "Mocha")], .vNone, .vBundle [("en", "Rich chocolate")],
   .vNone, .vNone, "mocha", 4, none, none⟩

/-- A product view with no resolvable meta candidates at all. -/
def pviewBlank : PView :=
  ⟨.vBundle [("en", "  ")], .vNone, .vNone, .vNone, .vNone, "x", 1, none, none⟩

/-- C8 witness: the seoTitle bundle being absent, `metaTitle` falls back
to the name bundle; with every candidate blank the meta fields are
absent; `slug` and `price` are untouched. -/
theorem claim_C8_witness :
    (attachMetaFields "vi" pviewMocha "en").metaTitle = some "Mocha" ∧
    (attachMetaFields "vi" pviewMocha "en").metaDescription =
      some "Rich chocolate" ∧
    (attachMetaFields "vi" pviewBlank "en").metaTitle = none ∧
    (attachMetaFields "vi" pviewMocha "en").slug = "mocha" ∧
    (attachMetaFields "vi" pviewMocha "en").price = 4 := by
  refine ⟨?_, by decide, ?_, ?_, ?_⟩
  · exact ((claim_C8_attach_meta_fields "vi" pviewMocha "en").1).trans (by decide)
  · exact (claim_C8_attach_meta_fields "vi" pviewBlank "en").2.2.1
      (by decide) (by decide)
  · exact (claim_C8_attach_meta_fields "vi" pviewMocha "en").2.2.2.2.2.2.2.2.1
  · exact (claim_C8_attach_meta_fields "vi" pviewMocha "en").2.2.2.2.2.2.2.2.2

/-! ## HTTP handlers and the `Vary: Accept-Language` header -/

/-- What the handlers' locale/header logic reads from the request. -/
structure Req where
  queryLocale : Option String
  acceptLanguage : Option String
deriving DecidableEq

/-- A handler response, reduced to the response-shape contract: status,
whether `Vary: Accept-Language` was set, whether the body went through
`localizeDoc`/`localizeList`, and whether it carries locale-resolved meta
fields from `attachMetaFields`. -/
structure Resp where
  status : Nat
  varySet : Bool
  localized : Bool
  metaAttached : Bool
deriving DecidableEq

/-- `shouldLocalize` from both controllers. -/
def shouldLocalize (r : Req) : Bool :=
  (match r.queryLocale with | some s => !(s == "") | none => false) ||
  (match r.acceptLanguage with | some s => !(jsTrim s == "") | none => false)

def TEMP_OPTIONS : List String := ["hot", "iced", "both", "warm"]

/-- The create body (string bodies already parsed; non-number prices are
outside the model, negative ones are its invalid representatives). -/
structure CreateBody where
  name_i18n : Option Bundle
  category : Option String
  price : Option Int
  temperatureOptions : Option (List String)
deriving DecidableEq

/-- The stored `name_i18n` of a row, as a bundle again. -/
def rowNameBundle (e : PRow) : Bundle :=
  (match e.name_vi with | some v => [("vi", v)] | none => []) ++
  (match e.name_en with | some v => [("en", v)] | none => [])

/-- `!body.name_i18n || (!body.name_i18n.vi && !body.name_i18n.en)`. -/
def bundleMissingViEn (nm : Option Bundle) : Bool :=
  match nm with
  | none => true
  | some b => decide (truthy (bLookup b "vi") = none) &&
      decide (truthy (bLookup b "en") = none)

/-- `typeof body.price !== "number" || body.price < 0` (create: required). -/
def priceInvalidRequired (p : Option Int) : Bool :=
  match p with | some q => decide (q < 0) | none => true

/-- `body.price !== undefined && (... || body.price < 0)` (update). -/
def priceInvalidOptional (p : Option Int) : Bool :=
  match p with | some q => decide (q < 0) | none => false

/-- `temperatureOptions` present but not all members of the enum. -/
def tempsInvalid (t : Option (List String)) : Bool :=
  match t with
  | some opts => !(opts.all (fun o => decide (o ∈ TEMP_OPTIONS)))
  | none => false

/-- `createProduct`: validations, `productRepo.create`, then a 201 JSON
response carrying `attachMetaFields` output — with no `Vary` header on
any branch. -/
def createProductH (db : DB) (freshId : Nat) (_r : Req) (b : CreateBody) : Resp :=
  if bundleMissingViEn b.name_i18n then ⟨400, false, false, false⟩
  else if priceInvalidRequired b.price then ⟨400, false, false, false⟩
  else if tempsInvalid b.temperatureOptions then ⟨400, false, false, false⟩
  else
    match (repoCreate db ⟨b.category, b.name_i18n, 0⟩ freshId).2 with
    | .error _ => ⟨409, false, false, false⟩
    | .ok _ => ⟨201, false, false, true⟩

/-- `updateProduct`: validations, `findById`, `productRepo.update` (whose
name-uniqueness check may throw), then a 200 JSON response with meta
fields — again with no `Vary` header on any branch. -/
def updateProductH (db : DB) (_r : Req) (found : Option PRow) (d : UData)
    (dPrice : Option Int) : Resp :=
  if priceInvalidOptional dPrice then ⟨400, false, false, false⟩
  else
    match found with
    | none => ⟨404, false, false, false⟩
    | some doc =>
      match ensureUniqueName db (jsOrS d.category (some doc.category))
          (match d.name_i18n with
           | some b => some b
           | none => some (rowNameBundle doc))
          (some doc.id) with
      | .error _ => ⟨409, false, false, false⟩
      | .ok _ => ⟨200, false, false, true⟩

/-- `getProducts`: the header is set before the localize branch, on every
successful listing. -/
def getProductsH (r : Req) : Resp := ⟨200, true, shouldLocalize r, true⟩

/-- `getProductsAdmin`. -/
def getProductsAdminH (r : Req) : Resp := ⟨200, true, shouldLocalize r, true⟩

/-- `listBestSellers`. -/
def listBestSellersH (r : Req) : Resp := ⟨200, true, shouldLocalize r, true⟩

/-- `listSignatureLineup`. -/
def listSignatureLineupH (r : Req) : Resp := ⟨200, true, shouldLocalize r, true⟩

/-- `getProductBySlug`: 404 early-returns without the header; a found
document always gets it. -/
def getProductBySlugH (r : Req) (found : Option PRow) : Resp :=
  match found with
  | none => ⟨404, false, false, false⟩
  | some _ => ⟨200, true, shouldLocalize r, true⟩

/-- `getHomeContent` from the home-content controller. -/
def getHomeContentH (r : Req) (home : Option Unit) : Resp :=
  match home with
  | none => ⟨404, false, false, false⟩
  | some _ => ⟨200, true, shouldLocalize r, false⟩

/-- `upsertHomeContent`: body validations, upsert, reload, then a 200
response with the header set. -/
def upsertHomeContentH (r : Req) (hero sigTitle : Option Bundle)
    (reloaded : Option Unit) : Resp :=
  if bundleMissingViEn hero then ⟨400, false, false, false⟩
  else if bundleMissingViEn sigTitle then ⟨400, false, false, false⟩
  else
    match reloaded with
    | none => ⟨500, false, false, false⟩
    | some _ => ⟨200, true, shouldLocalize r, false⟩

/-- C9 counterexample: a valid create request whose response carries
locale-resolved meta fields (locale-dependent rendering) and status 201,
yet the `Vary: Accept-Language` header is not set — the claim fails for
the create handler. -/
theorem claim_C9_counterexample :
    (createProductH [] 1 ⟨none, some "en"⟩
        ⟨some [("en", "Latte")], none, some 5, none⟩).status = 201 ∧
    (createProductH [] 1 ⟨none, some "en"⟩
        ⟨some [("en", "Latte")], none, some 5, none⟩).metaAttached = true ∧
    (createProductH [] 1 ⟨none, some "en"⟩
        ⟨some [("en", "Latte")], none, some 5, none⟩).varySet = false := by
  refine ⟨by decide, by decide, by decide⟩

/-- C9 (amended): every read/list handler (and the home-content upsert)
sets `Vary: Accept-Language` on each response produced after content was
retrieved, but the product create and update handlers never set it even
though their success responses attach locale-resolved meta fields. -/
theorem claim_C9_vary_header (r : Req) :
    (getProductsH r).varySet = true ∧
    (getProductsAdminH r).varySet = true ∧
    (listBestSellersH r).varySet = true ∧
    (listSignatureLineupH r).varySet = true ∧
    (∀ doc, (getProductBySlugH r (some doc)).varySet = true) ∧
    (getHomeContentH r (some ())).varySet = true ∧
    (∀ hero sigTitle reloaded,
      (upsertHomeContentH r hero sigTitle reloaded).status = 200 →
      (upsertHomeContentH r hero sigTitle reloaded).varySet = true) ∧
    (∀ db freshId b, (createProductH db freshId r b).varySet = false) ∧
    (∀ db found d dPrice,
      (updateProductH db r found d dPrice).varySet = false) := by
  refine ⟨rfl, rfl, rfl, rfl, fun doc => rfl, rfl, ?_, ?_, ?_⟩
  · intro hero sigTitle reloaded h
    unfold upsertHomeContentH at h ⊢
    by_cases h1 : bundleMissingViEn hero = true
    · rw [if_pos h1] at h
      exact absurd h (by simp)
    · rw [if_neg h1] at h ⊢
      by_cases h2 : bundleMissingViEn sigTitle = true
      · rw [if_pos h2] at h
        exact absurd h (by simp)
      · rw [if_neg h2] at h ⊢
        cases reloaded with
        | none => exact absurd h (by simp)
        | some u => rfl
  · intro db freshId b
    unfold createProductH
    cases bundleMissingViEn b.name_i18n with
    | true => rfl
    | false =>
      simp only [Bool.false_eq_true, if_false]
      cases priceInvalidRequired b.price with
      | true => rfl
      | false =>
        simp only [Bool.false_eq_true, if_false]
        cases tempsInvalid b.temperatureOptions with
        | true => rfl
        | false =>
          simp only [Bool.false_eq_true, if_false]
          cases (repoCreate db ⟨b.category, b.name_i18n, 0⟩ freshId).2 <;> rfl
  · intro db found d dPrice
    unfold updateProductH
    cases priceInvalidOptional dPrice with
    | true => rfl
    | false =>
      simp only [Bool.false_eq_true, if_false]
      cases found with
      | none => rfl
      | some doc =>
        cases h3 : ensureUniqueName db (jsOrS d.category (some doc.category))
          (match d.name_i18n with
           | some b => some b
           | none => some (rowNameBundle doc)) (some doc.id) <;> simp [h3]

/-- C9 witness: a list request and a valid home-content upsert both carry
the header. -/
theorem claim_C9_witness :
    (getProductsH ⟨none, some "en"⟩).varySet = true ∧
    (upsertHomeContentH ⟨none, some "en"⟩ (some [("en", "t")])
        (some [("en", "s")]) (some ())).varySet = true := by
  have h := claim_C9_vary_header ⟨none, some "en"⟩
  exact ⟨h.1, h.2.2.2.2.2.2.1 (some [("en", "t")]) (some [("en", "s")])
    (some ()) (by decide)⟩

end DropInBe
